import Mathlib

/-!
Verification of the Selection-and-Batch-Enrichment pipeline of the
discord-voice-transcriber repository against its natural-language
specification.

The embedding translates the relevant TypeScript into Lean:
* `IdeaManager` (ideaManager service): `getNextId`, `extractTags`,
  `saveIdeas`, `addIdea`, `addArticleIdea`, `addPaperIdea`,
  `getRecentIdeas` — state is passed explicitly as a `StoreState`
  (in-memory `ideas` array plus the JSON-persisted copy), and the
  outcomes of the fallible external effects (file write, Obsidian sync)
  are explicit boolean/option parameters.
* `handlePaperCommand` in `index.ts`: the selection-expression parsing
  (split on `[,\s]+`, ranges via `split('-')` and `parseInt`,
  `Set`-dedup, numeric sort, bounds filter) and the sequential batch
  loop over the selected papers with per-item failure isolation.
* `generatePaperMarkdown` / `generateTimestamp` / `formatDateTimeForDisplay`:
  the rendered paper document; the wall clock read by `new Date()` is an
  explicit parameter.

JavaScript primitives used by that code (`parseInt`, `String.prototype.trim`,
`padStart`, `split`, `Set` iteration order, in-place numeric `sort`) are
modelled by executable Lean functions below.
-/

/-! ## JavaScript string/number primitives -/

/-- Model of `Number.prototype.toString` for integral values. -/
def intToStr (i : Int) : String :=
  if i < 0 then "-" ++ Nat.repr i.natAbs else Nat.repr i.toNat

/-- Model of `String.prototype.padStart(n, c)`: pad at the front up to
length `n` (no-op when the string is already at least that long). -/
def padStart (s : String) (n : Nat) (c : Char) : String :=
  String.mk (List.replicate (n - s.data.length) c ++ s.data)

/-- Numeric value of a decimal digit character. -/
def digitVal (c : Char) : Nat := c.toNat - 48

/-- Value of the leading run of decimal digits, `none` when there is no
leading digit (`parseInt` returns `NaN` in that case). -/
def digitsVal (cs : List Char) : Option Nat :=
  let ds := cs.takeWhile Char.isDigit
  if ds.isEmpty then none
  else some (ds.foldl (fun a c => 10 * a + digitVal c) 0)

/-- Model of JavaScript `parseInt` (radix 10): skip leading whitespace,
optional sign, then the longest run of decimal digits; `none` models `NaN`. -/
def jsParseInt (cs : List Char) : Option Int :=
  let t := cs.dropWhile Char.isWhitespace
  if t.head? = some '-' then (digitsVal t.tail).map (fun n => -(n : Int))
  else if t.head? = some '+' then (digitsVal t.tail).map (fun n => (n : Int))
  else (digitsVal t).map (fun n => (n : Int))

/-- Model of `String.prototype.trim`. -/
def jsTrim (cs : List Char) : List Char :=
  ((cs.dropWhile Char.isWhitespace).reverse.dropWhile Char.isWhitespace).reverse

/-- Separator class of the split regex `[,\s]+` in `handlePaperCommand`. -/
def isSelSep (c : Char) : Bool := c = ',' || c.isWhitespace

/-- Worker for `splitSeps`; the accumulator is the part read so far. A
separator emits the current part only when it is the last character of
its separator run (one-character lookahead), so a run acts as a single
delimiter. -/
def splitSepsGo : List Char → List Char → List (List Char)
  | cur, [] => [cur]
  | cur, [c] => if isSelSep c then [cur, []] else [cur ++ [c]]
  | cur, c :: c2 :: cs =>
    if isSelSep c then
      if isSelSep c2 then splitSepsGo cur (c2 :: cs)
      else cur :: splitSepsGo [] (c2 :: cs)
    else splitSepsGo (cur ++ [c]) (c2 :: cs)

/-- Model of `String.prototype.split(/[,\s]+/)`: runs of separators are
single delimiters; a leading/trailing run yields an empty part. -/
def splitSeps (cs : List Char) : List (List Char) := splitSepsGo [] cs

/-- Model of `String.prototype.split('-')` (single-character separator,
every occurrence splits, empty pieces kept). -/
def jsSplitChar (sep : Char) : List Char → List (List Char)
  | [] => [[]]
  | c :: cs =>
    if c = sep then [] :: jsSplitChar sep cs
    else
      match jsSplitChar sep cs with
      | r :: rs => (c :: r) :: rs
      | [] => [[c]]

/-- Worker for `dedupKeepFirst`: `seen` holds the values already emitted. -/
def dedupGo {α : Type} [DecidableEq α] (seen : List α) : List α → List α
  | [] => []
  | x :: xs => if x ∈ seen then dedupGo seen xs else x :: dedupGo (x :: seen) xs

/-- Model of `[...new Set(xs)]`: deduplicate keeping the first occurrence of each
element, in insertion order. -/
def dedupKeepFirst {α : Type} [DecidableEq α] (l : List α) : List α :=
  dedupGo [] l

/-- The integers from `s` to `e` inclusive (empty when `s > e`), as pushed
by the `for (let i = start; i <= end; i++)` loop. -/
def rangeInts (s e : Int) : List Int :=
  (List.range (e + 1 - s).toNat).map (fun (i : Nat) => s + (i : Int))

/-! ## Tag extraction (`IdeaManager.extractTags`) -/

/-- Character class `[^\s#]` of the tag regex. -/
def isTagChar (c : Char) : Bool := !c.isWhitespace && c ≠ '#'

/-- State of the left-to-right scan of the global regex `#[^\s#]+`:
before any `#`, right after a candidate `#`, or inside a match with the
characters read so far (reversed). -/
inductive TagState
  | outside
  | pending
  | inside (acc : List Char)

/-- One-pass scan of the global regex `#[^\s#]+` over the content. -/
def tagScanGo : TagState → List Char → List (List Char)
  | .outside, [] => []
  | .pending, [] => []
  | .inside acc, [] => [acc.reverse]
  | .outside, c :: cs =>
    if c = '#' then tagScanGo .pending cs else tagScanGo .outside cs
  | .pending, c :: cs =>
    if isTagChar c then tagScanGo (.inside [c]) cs
    else if c = '#' then tagScanGo .pending cs
    else tagScanGo .outside cs
  | .inside acc, c :: cs =>
    if isTagChar c then tagScanGo (.inside (c :: acc)) cs
    else if c = '#' then acc.reverse :: tagScanGo .pending cs
    else acc.reverse :: tagScanGo .outside cs

/-- Global scan of the regex `#[^\s#]+`: each match is returned without
its leading `#` (the code strips it with `substring(1)`). -/
def tagScan (cs : List Char) : List (List Char) :=
  tagScanGo .outside cs

/-- Model of `IdeaManager.extractTags`: all `#tag` matches in `content`, hash sign
stripped, in match order, not deduplicated. -/
def extractTags (content : String) : List String :=
  (tagScan content.data).map (fun r => String.mk r)

/-! ## Data model (`BaseIdea` and friends) -/

inductive IdeaType
  | voice
  | text
  | article
  | paper
deriving DecidableEq, Repr

/-- The `articleData` payload stored on an `ArticleIdea`. -/
structure ArticleData where
  url : String
  title : String
  author : Option String
  publishedDate : Option String
  siteName : Option String
  ogImage : Option String
  description : Option String
  summary : String
deriving DecidableEq, Repr

/-- The scraped article fields passed into `addArticleIdea`. -/
structure ArticleInput where
  title : String
  author : Option String := none
  publishedDate : Option String := none
  siteName : Option String := none
  ogImage : Option String := none
  description : Option String := none
deriving DecidableEq, Repr

/-- The `paperMetadata` payload stored on a `PaperIdea`. -/
structure PaperMeta where
  arxivId : String
  authors : List String
  publishedDate : String
  categories : List String
  pdfUrl : String
  keyFindings : List String
  applications : String
deriving DecidableEq, Repr

/-- The `paperData` argument of `addPaperIdea`. -/
structure PaperData where
  arxivId : String
  title : String
  authors : List String
  publishedDate : String
  categories : List String
  pdfUrl : String
  abstract : String
deriving DecidableEq, Repr

/-- The result of `paperSummarizer.summarizePaper`. -/
structure PaperSummary where
  summary : String
  keyFindings : List String
  applications : String
  tags : List String
deriving DecidableEq, Repr

/-- A record of the store (`AnyIdea` in the source): the TypeScript union
is embedded with the per-kind payloads as optional fields selected by
`type`. `createdAt` is an abstract timestamp (epoch milliseconds). -/
structure Idea where
  id : String
  channel : String
  content : String
  type : IdeaType
  createdAt : Nat
  tags : List String
  filePath : Option String := none
  articleData : Option ArticleData := none
  paperMetadata : Option PaperMeta := none
deriving DecidableEq, Repr

/-- The mutable state owned by `IdeaManager`: the in-memory `ideas` array
and the content of the backing JSON file written by `saveIdeas`. -/
structure StoreState where
  ideas : List Idea
  persisted : List Idea
deriving DecidableEq, Repr

def emptyStore : StoreState := ⟨[], []⟩

/-- Model of `IdeaManager.saveIdeas`: rewrite the whole persisted form; a write
failure (`ok = false`) is caught and only logged, leaving every piece of
state as it was. -/
def saveIdeas (st : StoreState) (ok : Bool) : StoreState :=
  if ok then { st with persisted := st.ideas } else st

/-- Model of `IdeaManager.getNextId`: `parseInt` of the last record's id plus one,
zero-padded to width 3 (`parseInt` of an unparsable id would be `NaN`,
rendered `"NaN"`). -/
def getNextId (ideas : List Idea) : String :=
  match ideas.getLast? with
  | none => padStart (intToStr 1) 3 '0'
  | some last =>
    match jsParseInt last.id.data with
    | some k => padStart (intToStr (k + 1)) 3 '0'
    | none => padStart "NaN" 3 '0'

/-! ## Store append operations

Each `add*Idea` method assigns the next id, pushes the new record onto the
in-memory array, rewrites the persisted form (outcome `save1`), then tries
to mirror the record to Obsidian: on success (`obs = some fp`) it mutates
the pushed record's `filePath` and rewrites again (outcome `save2`); a
thrown Obsidian error (`obs = none`) is caught and ignored. All methods
return the (possibly `filePath`-updated) record; no error ever escapes. -/

/-- Shared tail of the three append methods: push, save, optional Obsidian
mirror with `filePath` update and second save. -/
def pushAndSync (st : StoreState) (newIdea : Idea)
    (save1 : Bool) (obs : Option String) (save2 : Bool) : Idea × StoreState :=
  let st1 := saveIdeas { st with ideas := st.ideas ++ [newIdea] } save1
  match obs with
  | some fp =>
    let updated := { newIdea with filePath := some fp }
    (updated, saveIdeas { st1 with ideas := st.ideas ++ [updated] } save2)
  | none => (newIdea, st1)

/-- Model of `IdeaManager.addIdea` (text/voice). -/
def addIdea (st : StoreState) (channel content : String) (ty : IdeaType)
    (now : Nat) (save1 : Bool) (obs : Option String) (save2 : Bool) :
    Idea × StoreState :=
  let id := getNextId st.ideas
  let tags := extractTags content
  let newIdea : Idea :=
    { id := id, channel := channel, content := content, type := ty,
      createdAt := now, tags := tags }
  pushAndSync st newIdea save1 obs save2

/-- Model of `IdeaManager.addArticleIdea`: tags are the `Set`-dedup of the caller's
tags followed by the tags extracted from the summary. -/
def addArticleIdea (st : StoreState) (channel url : String)
    (articleData : ArticleInput) (summary : String) (tags : List String)
    (now : Nat) (save1 : Bool) (obs : Option String) (save2 : Bool) :
    Idea × StoreState :=
  let id := getNextId st.ideas
  let summaryTags := extractTags summary
  let allTags := dedupKeepFirst (tags ++ summaryTags)
  let newIdea : Idea :=
    { id := id, channel := channel, content := summary, type := .article,
      createdAt := now, tags := allTags,
      articleData := some
        { url := url, title := articleData.title,
          author := articleData.author,
          publishedDate := articleData.publishedDate,
          siteName := articleData.siteName, ogImage := articleData.ogImage,
          description := articleData.description, summary := summary } }
  pushAndSync st newIdea save1 obs save2

/-- Model of `IdeaManager.addPaperIdea`: tags are `summary.tags` verbatim. -/
def addPaperIdea (st : StoreState) (paperData : PaperData)
    (summary : PaperSummary) (now : Nat) (save1 : Bool)
    (obs : Option String) (save2 : Bool) : Idea × StoreState :=
  let id := getNextId st.ideas
  let newIdea : Idea :=
    { id := id, channel := "論文収集", content := summary.summary,
      type := .paper, createdAt := now, tags := summary.tags,
      paperMetadata := some
        { arxivId := paperData.arxivId, authors := paperData.authors,
          publishedDate := paperData.publishedDate,
          categories := paperData.categories, pdfUrl := paperData.pdfUrl,
          keyFindings := summary.keyFindings,
          applications := summary.applications } }
  pushAndSync st newIdea save1 obs save2

/-- Model of `IdeaManager.getRecentIdeas`: copy the array (`[...this.ideas]`),
optionally filter by exact channel, sort the copy descending by
`createdAt` (JS stable sort), truncate. The second component is
`this.ideas` as left by the call. -/
def getRecentIdeas (ideas : List Idea) (limit : Nat)
    (channel : Option String) : List Idea × List Idea :=
  let copied : List Idea := ideas
  let filtered : List Idea :=
    match channel with
    | some ch => copied.filter (fun i => i.channel == ch)
    | none => copied
  ((filtered.insertionSort (fun a b => b.createdAt ≤ a.createdAt)).take limit,
    ideas)

/-! ## Selection-expression parsing (`handlePaperCommand`, select branch) -/

/-- Body of the token loop: a part containing a hyphen is `a-b` (extra
hyphen pieces are ignored by the destructuring); both ends must `parseInt`
or the token is dropped; otherwise the part is a single `parseInt` token,
dropped when unparsable. -/
def parsePart (part : List Char) : List Int :=
  if part.contains '-' then
    match jsSplitChar '-' part with
    | p0 :: p1 :: _ =>
      match jsParseInt (jsTrim p0), jsParseInt (jsTrim p1) with
      | some s, some e => rangeInts s e
      | _, _ => []
    | _ => []
  else
    match jsParseInt (jsTrim part) with
    | some n => [n]
    | none => []

/-- All numbers pushed onto `selectedNumbers` by the token loop. -/
def selectedNumbers (expr : String) : List Int :=
  (splitSeps expr.data).flatMap parsePart

/-- Model of `[...new Set(selectedNumbers)].sort((a, b) => a - b)`. -/
def uniqueSorted (xs : List Int) : List Int :=
  (dedupKeepFirst xs).insertionSort (fun a b => a ≤ b)

/-- Model of `validNumbers`: the deduplicated, ascending selection clipped to
`[1, candidateCount]`. -/
def validNumbers (expr : String) (candidateCount : Nat) : List Int :=
  (uniqueSorted (selectedNumbers expr)).filter
    (fun x => decide (1 ≤ x ∧ x ≤ (candidateCount : Int)))

/-- Mathematical reading of one selection token. -/
inductive SelToken
  | single (k : Int)
  | range (a b : Int)
deriving DecidableEq, Repr

/-- Classify a part the same way the token loop reads it: an integer token
or a range token, `none` when the loop drops it. -/
def tokenOf (part : List Char) : Option SelToken :=
  if part.contains '-' then
    match jsSplitChar '-' part with
    | p0 :: p1 :: _ =>
      match jsParseInt (jsTrim p0), jsParseInt (jsTrim p1) with
      | some s, some e => some (.range s e)
      | _, _ => none
    | _ => none
  else
    (jsParseInt (jsTrim part)).map .single

/-- The set of positions a token denotes: a singleton, or the closed
interval `[a, b]` (empty when `a > b`). -/
def tokenMem (t : SelToken) (p : Int) : Prop :=
  match t with
  | .single k => p = k
  | .range a b => a ≤ p ∧ p ≤ b

instance (t : SelToken) (p : Int) : Decidable (tokenMem t p) := by
  unfold tokenMem
  match t with
  | .single k => exact inferInstance
  | .range a b => exact inferInstance

/-! ## The sequential batch loop over selected papers -/

/-- A paper held in `arxivService.searchResults`. `publishedIso` is
`published.toISOString()` and `publishedLocale` is
`toLocaleDateString('ja-JP')`, both carried as already-rendered strings. -/
structure ArxivPaper where
  arxivId : String
  title : String
  authors : List String
  abstract : String
  publishedIso : String
  publishedLocale : String
  pdfUrl : String
  categories : List String
deriving DecidableEq, Repr

/-- Model of `arxivService.getSearchResult(index)`: bounds-checked lookup. -/
def getSearchResult (papers : List ArxivPaper) (index : Int) :
    Option ArxivPaper :=
  if 0 ≤ index ∧ index < (papers.length : Int) then papers.get? index.toNat
  else none

/-- An entry of `successfulPapers`, tagged with the selected position. -/
structure ItemSuccess where
  pos : Int
  paper : ArxivPaper
  idea : Idea
  summary : PaperSummary
deriving Repr

/-- An entry of `failedPapers`: the position, the title carried in the
entry's `paper` field, and the error message. -/
structure ItemFailure where
  pos : Int
  title : String
  error : String
deriving DecidableEq, Repr

/-- The external world of one batch: the stored search results and, per
selected position, the outcome of `summarizePaper` (`none` models a
thrown error), the success of the vault-channel posting, the wall clock,
and the outcomes of the store's save/Obsidian effects. -/
structure BatchEnv where
  searchResults : List ArxivPaper
  enrich : Int → Option PaperSummary
  postOk : Int → Bool
  clock : Int → Nat
  save1 : Int → Bool
  obs : Int → Option String
  save2 : Int → Bool

/-- The `paperData` record built from `selectedPaper` at the
`addPaperIdea` call site. -/
def paperDataOf (p : ArxivPaper) : PaperData :=
  { arxivId := p.arxivId, title := p.title, authors := p.authors,
    publishedDate := p.publishedIso, categories := p.categories,
    pdfUrl := p.pdfUrl, abstract := p.abstract }

/-- One batch iteration outcome accumulator: `successfulPapers`,
`failedPapers`, the store, and the number of `summarizePaper` calls. -/
structure BatchResult where
  successes : List ItemSuccess
  failures : List ItemFailure
  store : StoreState
  enrichCalls : Nat
deriving Repr

/-- The `for` loop of the select branch: resolve the candidate (failure
entry `'選択に失敗しました'` and continue when it is gone); call the
summarizer inside `try` (failure entry `'要約に失敗しました'` and
continue on a throw); on success persist via `addPaperIdea` and post the
markdown to the vault channel — a posting throw is caught by the same
`try`, so the item is recorded failed although its record stays
persisted. -/
def batchLoop (env : BatchEnv) : List Int → StoreState → BatchResult
  | [], st => ⟨[], [], st, 0⟩
  | num :: rest, st =>
    match getSearchResult env.searchResults (num - 1) with
    | none =>
      let r := batchLoop env rest st
      ⟨r.successes,
        ⟨num, "論文 #" ++ intToStr num, "選択に失敗しました"⟩ :: r.failures,
        r.store, r.enrichCalls⟩
    | some paper =>
      match env.enrich num with
      | none =>
        let r := batchLoop env rest st
        ⟨r.successes, ⟨num, paper.title, "要約に失敗しました"⟩ :: r.failures,
          r.store, r.enrichCalls + 1⟩
      | some summary =>
        let step := addPaperIdea st (paperDataOf paper) summary
          (env.clock num) (env.save1 num) (env.obs num) (env.save2 num)
        if env.postOk num then
          let r := batchLoop env rest step.2
          ⟨⟨num, paper, step.1, summary⟩ :: r.successes, r.failures,
            r.store, r.enrichCalls + 1⟩
        else
          let r := batchLoop env rest step.2
          ⟨r.successes, ⟨num, paper.title, "要約に失敗しました"⟩ :: r.failures,
            r.store, r.enrichCalls + 1⟩

/-- Whether the iteration for position `num` ends in `successfulPapers`. -/
def itemSucceeds (env : BatchEnv) (num : Int) : Bool :=
  match getSearchResult env.searchResults (num - 1) with
  | none => false
  | some _ =>
    match env.enrich num with
    | none => false
    | some _ => env.postOk num

/-- The user-visible result of the select branch before the batch:
missing argument, `NoValidSelection` (the `1から…の番号を指定して
ください` reply), or a completed batch. -/
inductive SelectReply
  | usage
  | noValidSelection
  | completed (successes : List ItemSuccess) (failures : List ItemFailure)

/-- Result of the whole select branch paired with the store it leaves
behind and the number of enrichment calls made. -/
structure SelectResult where
  reply : SelectReply
  store : StoreState
  enrichCalls : Nat

/-- The select branch of `handlePaperCommand`: empty argument → usage
reply; empty `validNumbers` → `noValidSelection` reply, nothing else
happens; otherwise run the batch loop. -/
def runPaperSelect (env : BatchEnv) (expr : String) (st : StoreState) :
    SelectResult :=
  if expr = "" then ⟨.usage, st, 0⟩
  else
    let valid := validNumbers expr env.searchResults.length
    if valid = [] then ⟨.noValidSelection, st, 0⟩
    else
      let r := batchLoop env valid st
      ⟨.completed r.successes r.failures, r.store, r.enrichCalls⟩

/-! ## Paper markdown rendering -/

/-- The broken-down wall clock read by `new Date()` in
`generateTimestamp`. -/
structure JSDate where
  year : Nat
  month : Nat
  day : Nat
  hour : Nat
  minute : Nat
  second : Nat
deriving DecidableEq, Repr

/-- Model of `generateTimestamp`: `YYYYMMDD_HHMMSS` built from the current wall
clock (not from any record field). -/
def generateTimestamp (d : JSDate) : String :=
  Nat.repr d.year ++ padStart (Nat.repr d.month) 2 '0'
    ++ padStart (Nat.repr d.day) 2 '0' ++ "_"
    ++ padStart (Nat.repr d.hour) 2 '0'
    ++ padStart (Nat.repr d.minute) 2 '0'
    ++ padStart (Nat.repr d.second) 2 '0'

/-- Model of `formatDateTimeForDisplay`: fixed-offset slices of the timestamp
string reassembled as `YYYY-MM-DD HH:MM:SS`. -/
def formatDateTimeForDisplay (timestamp : String) : String :=
  let cs := timestamp.data
  String.mk ((cs.take 4) ++ '-' :: ((cs.drop 4).take 2)
      ++ '-' :: ((cs.drop 6).take 2) ++ ' ' :: ((cs.drop 9).take 2)
      ++ ':' :: ((cs.drop 11).take 2) ++ ':' :: ((cs.drop 13).take 2))

/-- Body of `generatePaperMarkdown` with the timestamp string already computed:
the literal template of the source with the interpolations spliced in. -/
def paperMarkdownWithTs (ts : String) (idea : Idea) (paper : ArxivPaper)
    (summary : PaperSummary) : String :=
  "# 📚 論文要約\n\n**ファイル名**: paper_" ++ ts
    ++ ".md\n**投稿日時**: " ++ formatDateTimeForDisplay ts
    ++ "\n**チャンネル**: #論文収集\n**要約ID**: #" ++ idea.id
    ++ "\n\n## 📑 論文情報\n- **タイトル**: " ++ paper.title
    ++ "\n- **著者**: " ++ String.intercalate ", " paper.authors
    ++ "\n- **カテゴリー**: " ++ String.intercalate ", " paper.categories
    ++ "\n- **arXiv ID**: " ++ paper.arxivId
    ++ "\n- **PDF**: " ++ paper.pdfUrl
    ++ "\n- **公開日**: " ++ paper.publishedLocale
    ++ "\n\n## 📊 要約\n" ++ summary.summary
    ++ "\n\n## 🔍 重要な発見・貢献\n"
    ++ String.intercalate "\n" (summary.keyFindings.map (fun f => "- " ++ f))
    ++ "\n\n## 💡 実用的な応用可能性\n" ++ summary.applications
    ++ "\n\n## 🏷️ タグ\n"
    ++ String.intercalate " " (summary.tags.map (fun t => "#" ++ t))
    ++ "\n\n## 📄 要旨（原文）\n" ++ paper.abstract
    ++ "\n\n---\n*arXiv: https://arxiv.org/abs/" ++ paper.arxivId
    ++ "*\n*Obsidian用Markdownファイル*"

/-- Model of `generatePaperMarkdown`: reads the wall clock via
`generateTimestamp()` and splices it into the rendered document. -/
def generatePaperMarkdown (idea : Idea) (paper : ArxivPaper)
    (summary : PaperSummary) (d : JSDate) : String :=
  paperMarkdownWithTs (generateTimestamp d) idea paper summary

/-! ## Append sequences (for the ID-monotonicity claim) -/

/-- One append call with all of its external-effect outcomes. -/
inductive AppendReq
  | plain (channel content : String) (isVoice : Bool) (now : Nat)
      (save1 : Bool) (obs : Option String) (save2 : Bool)
  | article (channel url : String) (articleData : ArticleInput)
      (summary : String) (tags : List String) (now : Nat)
      (save1 : Bool) (obs : Option String) (save2 : Bool)
  | paper (paperData : PaperData) (summary : PaperSummary) (now : Nat)
      (save1 : Bool) (obs : Option String) (save2 : Bool)

/-- Dispatch one append call to the corresponding `IdeaManager` method. -/
def applyAppend (st : StoreState) : AppendReq → Idea × StoreState
  | .plain channel content isVoice now save1 obs save2 =>
    addIdea st channel content (if isVoice then .voice else .text) now
      save1 obs save2
  | .article channel url articleData summary tags now save1 obs save2 =>
    addArticleIdea st channel url articleData summary tags now save1 obs
      save2
  | .paper paperData summary now save1 obs save2 =>
    addPaperIdea st paperData summary now save1 obs save2

/-- Run a sequence of append calls against a store. -/
def appendAll (st : StoreState) (reqs : List AppendReq) : StoreState :=
  reqs.foldl (fun s r => (applyAppend s r).2) st

/-- The id the store assigns to the `(i+1)`-th record appended to an
initially empty store. -/
def expectedId (i : Nat) : String := padStart (Nat.repr (i + 1)) 3 '0'

/-- Whether the iteration for `num` persists a record: persistence
happens once the summarizer returns, regardless of the later posting
outcome (`addPaperIdea` runs before the vault-channel sends). -/
def itemPersists (env : BatchEnv) (num : Int) : Bool :=
  (getSearchResult env.searchResults (num - 1)).isSome
    && (env.enrich num).isSome

/-- The failure entry the loop records for a position that does not end
in `successfulPapers`: candidate-resolution failures carry the
placeholder title and `'選択に失敗しました'`; failures past resolution
carry the paper's title and `'要約に失敗しました'`. -/
def failureEntry (env : BatchEnv) (num : Int) : ItemFailure :=
  match getSearchResult env.searchResults (num - 1) with
  | none => ⟨num, "論文 #" ++ intToStr num, "選択に失敗しました"⟩
  | some paper => ⟨num, paper.title, "要約に失敗しました"⟩

/-- The order in which the final result embed reports per-item outcomes:
the `successfulPapers` block first (first paper's detail, then the other
saved papers), then the `failedPapers` tally. -/
def reportedOrder (r : BatchResult) : List Int :=
  r.successes.map (fun s => s.pos) ++ r.failures.map (fun f => f.pos)

/-- A concrete search result used by witnesses and counterexamples. -/
def samplePaper (n : Nat) : ArxivPaper :=
  { arxivId := "2501.0000" ++ Nat.repr n, title := "Paper " ++ Nat.repr n,
    authors := ["Author"], abstract := "abstract",
    publishedIso := "2025-01-01T00:00:00.000Z",
    publishedLocale := "2025/1/1",
    pdfUrl := "https://arxiv.org/pdf/s.pdf", categories := ["cs.AI"] }

/-- A concrete summarizer result used by witnesses and counterexamples. -/
def sampleSummary : PaperSummary :=
  { summary := "要約", keyFindings := ["発見"], applications := "応用",
    tags := ["AI"] }

/-- A batch world over the given papers in which the summarizer throws
exactly at position `f` and every other effect succeeds. -/
def envFailAt (papers : List ArxivPaper) (f : Int) : BatchEnv :=
  { searchResults := papers,
    enrich := fun num => if num = f then none else some sampleSummary,
    postOk := fun _ => true, clock := fun _ => 0,
    save1 := fun _ => true, obs := fun _ => none, save2 := fun _ => true }

/-! ## Lemmas: decimal digits and `Nat.repr` -/

/-- Folding step used by `digitsVal`. -/
def digitStep (a : Nat) (c : Char) : Nat := 10 * a + digitVal c

theorem digitVal_digitChar {m : Nat} (h : m < 10) :
    digitVal (Nat.digitChar m) = m := by
  interval_cases m <;> decide

theorem isDigit_digitChar {m : Nat} (h : m < 10) :
    (Nat.digitChar m).isDigit = true := by
  interval_cases m <;> decide

theorem toDigitsCore_append (f : Nat) :
    ∀ (n : Nat) (ds : List Char),
      Nat.toDigitsCore 10 f n ds = Nat.toDigitsCore 10 f n [] ++ ds := by
  induction f with
  | zero => intro n ds; simp [Nat.toDigitsCore]
  | succ f ih =>
    intro n ds
    simp only [Nat.toDigitsCore]
    by_cases h : n / 10 = 0
    · simp [h]
    · simp only [h, if_false]
      rw [ih (n / 10) (Nat.digitChar (n % 10) :: ds),
        ih (n / 10) [Nat.digitChar (n % 10)]]
      simp

theorem toDigitsCore_digits (f : Nat) :
    ∀ (n : Nat), ∀ c ∈ Nat.toDigitsCore 10 f n [], c.isDigit = true := by
  induction f with
  | zero => intro n c hc; simp [Nat.toDigitsCore] at hc
  | succ f ih =>
    intro n c hc
    simp only [Nat.toDigitsCore] at hc
    by_cases h : n / 10 = 0
    · simp [h] at hc
      exact hc ▸ isDigit_digitChar (Nat.mod_lt n (by omega))
    · simp only [h, if_false] at hc
      rw [toDigitsCore_append] at hc
      rcases List.mem_append.mp hc with h1 | h1
      · exact ih _ c h1
      · simp at h1
        exact h1 ▸ isDigit_digitChar (Nat.mod_lt n (by omega))

theorem toDigitsCore_ne_nil {f n : Nat} (hf : 0 < f) :
    Nat.toDigitsCore 10 f n [] ≠ [] := by
  cases f with
  | zero => omega
  | succ f =>
    simp only [Nat.toDigitsCore]
    by_cases h : n / 10 = 0
    · simp [h]
    · simp only [h, if_false]
      rw [toDigitsCore_append]
      simp

theorem foldl_toDigitsCore (f : Nat) :
    ∀ n, n < f → ∀ a,
      (Nat.toDigitsCore 10 f n []).foldl digitStep a
        = a * 10 ^ (Nat.toDigitsCore 10 f n []).length + n := by
  induction f with
  | zero => intro n h; omega
  | succ f ih =>
    intro n hn a
    simp only [Nat.toDigitsCore]
    by_cases h : n / 10 = 0
    · have hn10 : n < 10 := by omega
      simp [h, digitStep, Nat.mod_eq_of_lt hn10, digitVal_digitChar hn10,
        Nat.mul_comm]
    · have hrec : n / 10 < f := by
        have h10 : n / 10 < n := Nat.div_lt_self (by omega) (by omega)
        omega
      simp only [h, if_false]
      rw [toDigitsCore_append]
      rw [List.foldl_append, List.length_append]
      rw [ih (n / 10) hrec a]
      simp only [List.foldl_cons, List.foldl_nil, List.length_cons,
        List.length_nil]
      rw [digitStep, digitVal_digitChar (Nat.mod_lt n (by omega))]
      rw [Nat.pow_succ]
      have := Nat.div_add_mod n 10
      ring_nf
      omega

theorem repr_data (n : Nat) :
    (Nat.repr n).data = Nat.toDigitsCore 10 (n + 1) n [] := rfl

theorem repr_all_digits (n : Nat) :
    ∀ c ∈ (Nat.repr n).data, c.isDigit = true := by
  rw [repr_data]; exact toDigitsCore_digits (n + 1) n

theorem repr_data_ne_nil (n : Nat) : (Nat.repr n).data ≠ [] := by
  rw [repr_data]; exact toDigitsCore_ne_nil (Nat.succ_pos n)

theorem foldl_repr (n : Nat) : (Nat.repr n).data.foldl digitStep 0 = n := by
  rw [repr_data, foldl_toDigitsCore (n + 1) n (Nat.lt_succ_self n) 0]
  simp

theorem foldl_digitStep_replicate_zero (z : Nat) :
    (List.replicate z '0').foldl digitStep 0 = 0 := by
  induction z with
  | zero => rfl
  | succ z ih => simpa [List.replicate_succ, digitStep, digitVal] using ih

theorem takeWhile_eq_self_of_all {p : Char → Bool} :
    ∀ {cs : List Char}, (∀ c ∈ cs, p c = true) → cs.takeWhile p = cs := by
  intro cs
  induction cs with
  | nil => intro; rfl
  | cons c rest ih =>
    intro h
    rw [List.takeWhile_cons_of_pos (h c (by simp))]
    rw [ih (fun x hx => h x (by simp [hx]))]

theorem digitsVal_of_all_digits {cs : List Char} (h : ¬ cs = [])
    (hd : ∀ c ∈ cs, c.isDigit = true) :
    digitsVal cs = some (cs.foldl digitStep 0) := by
  unfold digitsVal
  rw [takeWhile_eq_self_of_all hd]
  rw [if_neg (by simpa using h)]
  rfl

theorem not_ws_of_digit {c : Char} (h : c.isDigit = true) :
    c.isWhitespace = false := by
  cases hw : c.isWhitespace
  · rfl
  · exfalso
    simp only [Char.isWhitespace, Bool.or_eq_true, decide_eq_true_eq] at hw
    rcases hw with ((rfl | rfl) | rfl) | rfl <;> exact absurd h (by decide)

theorem ne_dash_of_digit {c : Char} (h : c.isDigit = true) : ¬ c = '-' := by
  rintro rfl; exact absurd h (by decide)

theorem ne_plus_of_digit {c : Char} (h : c.isDigit = true) : ¬ c = '+' := by
  rintro rfl; exact absurd h (by decide)

theorem jsParseInt_all_digits {cs : List Char} (h : ¬ cs = [])
    (hd : ∀ c ∈ cs, c.isDigit = true) :
    jsParseInt cs = some ((cs.foldl digitStep 0 : Nat) : Int) := by
  obtain ⟨c, rest, rfl⟩ := List.exists_cons_of_ne_nil h
  have hc : c.isDigit = true := hd c (by simp)
  have hdrop : (c :: rest).dropWhile Char.isWhitespace = c :: rest :=
    List.dropWhile_cons_of_neg (by simp [not_ws_of_digit hc])
  unfold jsParseInt
  simp only [hdrop, List.head?_cons, List.tail_cons, Option.some.injEq]
  rw [if_neg (ne_dash_of_digit hc), if_neg (ne_plus_of_digit hc)]
  rw [digitsVal_of_all_digits h hd]
  rfl

theorem padStart_repr_data (m z : Nat) :
    (padStart (Nat.repr m) (z : Nat) '0').data
      = List.replicate (z - (Nat.repr m).data.length) '0'
        ++ (Nat.repr m).data := rfl

theorem jsParseInt_padStart_repr (m w : Nat) :
    jsParseInt (padStart (Nat.repr m) w '0').data = some (m : Int) := by
  rw [padStart_repr_data]
  rw [jsParseInt_all_digits]
  · rw [List.foldl_append, foldl_digitStep_replicate_zero, foldl_repr]
  · intro hcon
    exact repr_data_ne_nil m (by simpa using List.append_eq_nil.mp hcon |>.2)
  · intro c hc
    rcases List.mem_append.mp hc with h1 | h1
    · have : c = '0' := List.eq_of_mem_replicate h1
      subst this; decide
    · exact repr_all_digits m c h1

/-! ## Lemmas: id assignment -/

theorem intToStr_ofNat (m : Nat) : intToStr (m : Int) = Nat.repr m := by
  unfold intToStr
  rw [if_neg (by omega)]
  simp

theorem expectedId_parse (i : Nat) :
    jsParseInt (expectedId i).data = some ((i : Int) + 1) := by
  unfold expectedId
  rw [jsParseInt_padStart_repr]
  push_cast
  rfl

theorem expectedId_injective : Function.Injective expectedId := by
  intro a b hab
  have h := congrArg (fun s => jsParseInt s.data) hab
  simp only [expectedId_parse, Option.some.injEq] at h
  omega

theorem getNextId_of_ids {ideas : List Idea} {k : Nat}
    (h : ideas.map (fun i => i.id) = (List.range k).map expectedId) :
    getNextId ideas = expectedId k := by
  cases k with
  | zero =>
    have hnil : ideas = [] := by simpa using h
    subst hnil
    unfold getNextId
    decide
  | succ k =>
    have hlast : ideas.getLast?.map (fun i => i.id) = some (expectedId k) := by
      rw [← List.getLast?_map, h, List.range_succ]
      simp
    obtain ⟨last, hl, hid⟩ : ∃ last, ideas.getLast? = some last
        ∧ last.id = expectedId k := by
      cases hg : ideas.getLast? with
      | none => rw [hg] at hlast; simp at hlast
      | some last =>
        rw [hg] at hlast
        simp only [Option.map_some', Option.some.injEq] at hlast
        exact ⟨last, rfl, hlast⟩
    unfold getNextId
    rw [hl]
    simp only [hid, expectedId_parse k]
    have : (k : Int) + 1 + 1 = ((k + 2 : Nat) : Int) := by push_cast; ring
    rw [this, intToStr_ofNat]
    rfl

theorem saveIdeas_ideas (st : StoreState) (b : Bool) :
    (saveIdeas st b).ideas = st.ideas := by
  unfold saveIdeas; split <;> rfl

theorem pushAndSync_fst_id (st : StoreState) (newIdea : Idea) (s1 : Bool)
    (obs : Option String) (s2 : Bool) :
    (pushAndSync st newIdea s1 obs s2).1.id = newIdea.id := by
  unfold pushAndSync
  cases obs <;> rfl

theorem pushAndSync_snd_ideas (st : StoreState) (newIdea : Idea) (s1 : Bool)
    (obs : Option String) (s2 : Bool) :
    (pushAndSync st newIdea s1 obs s2).2.ideas
      = st.ideas ++ [(pushAndSync st newIdea s1 obs s2).1] := by
  unfold pushAndSync
  cases obs <;> simp [saveIdeas_ideas]

theorem applyAppend_ids (st : StoreState) (r : AppendReq) :
    (applyAppend st r).2.ideas.map (fun i => i.id)
      = st.ideas.map (fun i => i.id) ++ [getNextId st.ideas] := by
  cases r <;>
    simp [applyAppend, addIdea, addArticleIdea, addPaperIdea,
      pushAndSync_snd_ideas, pushAndSync_fst_id]

theorem appendAll_ids (reqs : List AppendReq) :
    ∀ (st : StoreState) (k : Nat),
      st.ideas.map (fun i => i.id) = (List.range k).map expectedId →
      (appendAll st reqs).ideas.map (fun i => i.id)
        = (List.range (k + reqs.length)).map expectedId := by
  induction reqs with
  | nil => intro st k h; simpa [appendAll] using h
  | cons r rest ih =>
    intro st k h
    have hnext : getNextId st.ideas = expectedId k := getNextId_of_ids h
    have hstep : (applyAppend st r).2.ideas.map (fun i => i.id)
        = (List.range (k + 1)).map expectedId := by
      rw [applyAppend_ids, h, hnext, List.range_succ, List.map_append]
      rfl
    have hrest := ih (applyAppend st r).2 (k + 1) hstep
    have harith : k + 1 + rest.length = k + (rest.length + 1) := by omega
    rw [harith] at hrest
    simpa [appendAll] using hrest

/-! ## Claims C1 and C2 -/

/-- C1: starting from an empty store, any sequence of `N` append calls
(text/voice, article, paper, any mix, any effect outcomes) assigns exactly
the zero-padded decimal ids for `1..N` (`expectedId 0 = "001"`,
`expectedId 1 = "002"`, …) in order — strictly increasing numeric values
`1..N` with no gaps — and the id strings never repeat. -/
theorem c1_ids_exact_monotonic (reqs : List AppendReq) :
    (appendAll emptyStore reqs).ideas.map (fun i => i.id)
        = (List.range reqs.length).map expectedId
      ∧ ((appendAll emptyStore reqs).ideas.map (fun i => i.id)).Nodup
      ∧ (appendAll emptyStore reqs).ideas.map (fun i => jsParseInt i.id.data)
        = (List.range reqs.length).map (fun (i : Nat) => some ((i : Int) + 1)) := by
  have h0 : emptyStore.ideas.map (fun i => i.id)
      = (List.range 0).map expectedId := rfl
  have h := appendAll_ids reqs emptyStore 0 h0
  rw [Nat.zero_add] at h
  refine ⟨h, ?_, ?_⟩
  · rw [h]
    exact (List.nodup_range _).map expectedId_injective
  · have hmm : (appendAll emptyStore reqs).ideas.map
        (fun i => jsParseInt i.id.data)
        = ((appendAll emptyStore reqs).ideas.map (fun i => i.id)).map
          (fun s => jsParseInt s.data) := by
      rw [List.map_map]; rfl
    rw [hmm, h, List.map_map]
    refine List.map_congr_left (fun i _ => ?_)
    exact expectedId_parse i

/-- C2 (amended): when the rewrite of the persisted form fails, the
error is caught and only logged — `addIdea` still returns the freshly
appended record as a success, the record remains in the in-memory
collection, and the persisted form is simply left stale; there is no
rollback and no failure report. (Stated with the Obsidian mirror also
failing, so no second rewrite occurs.) -/
theorem c2_failed_rewrite_keeps_record (st : StoreState)
    (channel content : String) (ty : IdeaType) (now : Nat) :
    (addIdea st channel content ty now false none false).2.ideas
        = st.ideas ++ [(addIdea st channel content ty now false none false).1]
      ∧ (addIdea st channel content ty now false none false).2.persisted
        = st.persisted
      ∧ (addIdea st channel content ty now false none false).1.content
        = content
      ∧ (addIdea st channel content ty now false none false).1.id
        = getNextId st.ideas := by
  refine ⟨?_, ?_, rfl, rfl⟩ <;> simp [addIdea, pushAndSync, saveIdeas]

/-- C2 (counterexample to the claim as stated): an append whose
persisted-form rewrite fails does not leave the in-memory collection at
its pre-append state — the new record is visible in memory only. -/
theorem c2_counterexample :
    ¬ ((addIdea emptyStore "ひらめき" "メモ" .text 0 false none false).2.ideas
      = emptyStore.ideas) := by
  decide

/-! ## Lemmas: selection parsing -/

theorem rangeInts_eq_nil {a b : Int} (h : b < a) : rangeInts a b = [] := by
  unfold rangeInts
  have h0 : (b + 1 - a).toNat = 0 := by omega
  rw [h0]
  rfl

theorem mem_rangeInts {a b p : Int} : p ∈ rangeInts a b ↔ a ≤ p ∧ p ≤ b := by
  unfold rangeInts
  simp only [List.mem_map, List.mem_range]
  constructor
  · rintro ⟨i, hi, rfl⟩
    omega
  · rintro ⟨h1, h2⟩
    exact ⟨(p - a).toNat, by omega, by omega⟩

theorem parsePart_eq (part : List Char) :
    parsePart part = match tokenOf part with
      | some (.single k) => [k]
      | some (.range a b) => rangeInts a b
      | none => [] := by
  unfold parsePart tokenOf
  by_cases h : part.contains '-'
  · simp only [h, if_true]
    rcases hs : jsSplitChar '-' part with _ | ⟨p0, _ | ⟨p1, rest⟩⟩
    · rfl
    · rfl
    · rcases h0 : jsParseInt (jsTrim p0) with _ | a <;>
        rcases h1 : jsParseInt (jsTrim p1) with _ | b <;>
        simp only [h0, h1]
  · simp only [h, Bool.false_eq_true, if_false]
    rcases h0 : jsParseInt (jsTrim part) with _ | n <;> simp only [h0] <;> rfl

theorem mem_parsePart {part : List Char} {t : SelToken}
    (h : tokenOf part = some t) (p : Int) :
    p ∈ parsePart part ↔ tokenMem t p := by
  rw [parsePart_eq, h]
  cases t with
  | single k => simp [tokenMem]
  | range a b => simpa [tokenMem] using mem_rangeInts

theorem mem_dedupGo {α : Type} [DecidableEq α] (a : α) :
    ∀ (l seen : List α), a ∈ dedupGo seen l ↔ a ∈ l ∧ a ∉ seen := by
  intro l
  induction l with
  | nil => intro seen; simp [dedupGo]
  | cons x xs ih =>
    intro seen
    unfold dedupGo
    by_cases hx : x ∈ seen
    · rw [if_pos hx, ih]
      by_cases hax : a = x
      · subst hax; simp [hx]
      · simp [hax]
    · rw [if_neg hx]
      by_cases hax : a = x
      · subst hax; simp [List.mem_cons, ih, hx]
      · simp [List.mem_cons, hax, false_or, ih]

theorem nodup_dedupGo {α : Type} [DecidableEq α] :
    ∀ (l seen : List α), (dedupGo seen l).Nodup := by
  intro l
  induction l with
  | nil => intro seen; simp [dedupGo]
  | cons x xs ih =>
    intro seen
    unfold dedupGo
    by_cases hx : x ∈ seen
    · rw [if_pos hx]; exact ih seen
    · rw [if_neg hx]
      refine List.nodup_cons.mpr ⟨?_, ih _⟩
      intro hmem
      rw [mem_dedupGo] at hmem
      exact hmem.2 (by simp)

theorem mem_dedupKeepFirst {α : Type} [DecidableEq α] (l : List α) (a : α) :
    a ∈ dedupKeepFirst l ↔ a ∈ l := by
  unfold dedupKeepFirst
  rw [mem_dedupGo]
  simp

theorem nodup_dedupKeepFirst {α : Type} [DecidableEq α] (l : List α) :
    (dedupKeepFirst l).Nodup :=
  nodup_dedupGo l []

theorem uniqueSorted_sorted (xs : List Int) :
    (uniqueSorted xs).Sorted (fun a b : Int => a ≤ b) :=
  List.sorted_insertionSort _ _

theorem uniqueSorted_nodup (xs : List Int) : (uniqueSorted xs).Nodup :=
  (List.perm_insertionSort _ _).symm.nodup (nodup_dedupKeepFirst xs)

theorem mem_uniqueSorted {xs : List Int} {p : Int} :
    p ∈ uniqueSorted xs ↔ p ∈ xs := by
  unfold uniqueSorted
  rw [(List.perm_insertionSort _ _).mem_iff, mem_dedupKeepFirst]

theorem validNumbers_sorted (expr : String) (n : Nat) :
    (validNumbers expr n).Sorted (· < ·) := by
  unfold validNumbers
  exact ((uniqueSorted_sorted _).filter _).lt_of_le
    ((uniqueSorted_nodup _).filter _)

theorem mem_validNumbers {expr : String} {n : Nat} {p : Int} :
    p ∈ validNumbers expr n
      ↔ p ∈ selectedNumbers expr ∧ 1 ≤ p ∧ p ≤ (n : Int) := by
  unfold validNumbers
  rw [List.mem_filter, mem_uniqueSorted]
  simp

theorem mem_selectedNumbers {expr : String} {p : Int} :
    p ∈ selectedNumbers expr
      ↔ ∃ part ∈ splitSeps expr.data, p ∈ parsePart part := by
  unfold selectedNumbers
  simp [List.mem_flatMap]

theorem exists_part_iff_token (p : Int) :
    ∀ (parts : List (List Char)) (toks : List SelToken),
      parts.map tokenOf = toks.map some →
      ((∃ part ∈ parts, p ∈ parsePart part) ↔ ∃ t ∈ toks, tokenMem t p) := by
  intro parts
  induction parts with
  | nil =>
    intro toks h
    cases toks with
    | nil => simp
    | cons t ts => simp at h
  | cons part rest ih =>
    intro toks h
    cases toks with
    | nil => simp at h
    | cons t ts =>
      simp only [List.map_cons, List.cons.injEq] at h
      obtain ⟨h1, h2⟩ := h
      have hrest := ih ts h2
      constructor
      · rintro ⟨x, hx, hpx⟩
        rcases List.mem_cons.mp hx with rfl | hx2
        · exact ⟨t, by simp, (mem_parsePart h1 p).mp hpx⟩
        · obtain ⟨t2, ht2, htm⟩ := hrest.mp ⟨x, hx2, hpx⟩
          exact ⟨t2, by simp [ht2], htm⟩
      · rintro ⟨t2, ht2, htm⟩
        rcases List.mem_cons.mp ht2 with rfl | ht3
        · exact ⟨part, by simp, (mem_parsePart h1 p).mpr htm⟩
        · obtain ⟨x, hx, hpx⟩ := hrest.mpr ⟨t2, ht3, htm⟩
          exact ⟨x, by simp [hx], hpx⟩

/-! ## Claims C3 and C8 -/

/-- C3: whenever every whitespace/comma-separated part of the
expression is read by the token loop as an integer token or a range token
(`toks` lists those readings in order), the parsed selection is sorted
strictly ascending (hence duplicate-free) and contains exactly the union
of the denoted singletons and ranges intersected with
`[1, candidateCount]`. -/
theorem c3_parse_is_clipped_union (expr : String) (n : Nat)
    (toks : List SelToken)
    (h : (splitSeps expr.data).map tokenOf = toks.map some) :
    (validNumbers expr n).Sorted (· < ·)
      ∧ ∀ p : Int, p ∈ validNumbers expr n
          ↔ ((∃ t ∈ toks, tokenMem t p) ∧ 1 ≤ p ∧ p ≤ (n : Int)) := by
  refine ⟨validNumbers_sorted expr n, fun p => ?_⟩
  rw [mem_validNumbers, mem_selectedNumbers,
    exists_part_iff_token p (splitSeps expr.data) toks h]

/-- C3 (witness): the spec's end-to-end example `"1,2,5-6"` over six
candidates: the tokens are `1`, `2` and the range `5-6`, and the parsed
selection is their union clipped to `[1, 6]`. -/
theorem c3_witness :
    (validNumbers "1,2,5-6" 6).Sorted (· < ·)
      ∧ ∀ p : Int, p ∈ validNumbers "1,2,5-6" 6
          ↔ ((∃ t ∈ [SelToken.single 1, SelToken.single 2,
                SelToken.range 5 6], tokenMem t p)
            ∧ 1 ≤ p ∧ p ≤ ((6 : Nat) : Int)) :=
  c3_parse_is_clipped_union "1,2,5-6" 6
    [SelToken.single 1, SelToken.single 2, SelToken.range 5 6] (by decide)

/-- C8: a range token whose two ends parse as integers with
`start > end` contributes no positions — the token loop's `for` loop runs
zero times — and causes no error. -/
theorem c8_reversed_range_is_empty (part p0 p1 : List Char)
    (rest : List (List Char)) (a b : Int)
    (hc : part.contains '-' = true)
    (hs : jsSplitChar '-' part = p0 :: p1 :: rest)
    (h0 : jsParseInt (jsTrim p0) = some a)
    (h1 : jsParseInt (jsTrim p1) = some b)
    (hab : b < a) :
    parsePart part = [] := by
  have htok : tokenOf part = some (.range a b) := by
    unfold tokenOf
    rw [if_pos hc, hs]
    simp only [h0, h1]
  rw [parsePart_eq, htok]
  exact rangeInts_eq_nil hab

/-- C8 (witness): the spec's example token `"3-1"`: both ends parse
(`3` and `1`), `3 > 1`, and the token contributes nothing. -/
theorem c8_witness :
    ("3-1".data.contains '-' = true)
      ∧ jsSplitChar '-' "3-1".data = ['3'] :: ['1'] :: []
      ∧ jsParseInt (jsTrim ['3']) = some 3
      ∧ jsParseInt (jsTrim ['1']) = some 1
      ∧ ((1 : Int) < 3)
      ∧ parsePart "3-1".data = [] :=
  ⟨by decide, by decide, by decide, by decide, by decide,
    c8_reversed_range_is_empty "3-1".data ['3'] ['1'] [] 3 1 (by decide)
      (by decide) (by decide) (by decide) (by decide)⟩

/-! ## Lemmas: the batch loop -/

theorem addPaperIdea_ideas_length (st : StoreState) (pd : PaperData)
    (ps : PaperSummary) (now : Nat) (s1 : Bool) (obs : Option String)
    (s2 : Bool) :
    (addPaperIdea st pd ps now s1 obs s2).2.ideas.length
      = st.ideas.length + 1 := by
  unfold addPaperIdea
  rw [pushAndSync_snd_ideas]
  simp

theorem itemSucceeds_eq_true {env : BatchEnv} {num : Int} :
    itemSucceeds env num = true
      ↔ (getSearchResult env.searchResults (num - 1)).isSome = true
        ∧ (env.enrich num).isSome = true ∧ env.postOk num = true := by
  unfold itemSucceeds
  cases h1 : getSearchResult env.searchResults (num - 1) with
  | none => simp
  | some p =>
    cases h2 : env.enrich num with
    | none => simp
    | some s => simp

theorem batchLoop_split (env : BatchEnv) :
    ∀ (sel : List Int) (st : StoreState),
      (batchLoop env sel st).successes.map (fun s => s.pos)
          = sel.filter (fun num => itemSucceeds env num)
        ∧ (batchLoop env sel st).failures
          = (sel.filter (fun num => !(itemSucceeds env num))).map
              (failureEntry env)
        ∧ (batchLoop env sel st).store.ideas.length
          = st.ideas.length
            + (sel.filter (fun num => itemPersists env num)).length
        ∧ (batchLoop env sel st).enrichCalls
          = (sel.filter (fun num =>
              (getSearchResult env.searchResults (num - 1)).isSome)).length := by
  intro sel
  induction sel with
  | nil => intro st; simp [batchLoop]
  | cons num rest ih =>
    intro st
    obtain ⟨ih1, ih2, ih3, ih4⟩ := ih st
    cases hres : getSearchResult env.searchResults (num - 1) with
    | none =>
      have hsucc : itemSucceeds env num = false := by
        unfold itemSucceeds; rw [hres]
      have hpers : itemPersists env num = false := by
        unfold itemPersists; rw [hres]; rfl
      have hfe : failureEntry env num
          = ⟨num, "論文 #" ++ intToStr num, "選択に失敗しました"⟩ := by
        unfold failureEntry; rw [hres]
      simp only [batchLoop, hres, List.filter_cons, hsucc, hpers,
        Bool.not_false, if_false, if_true, Bool.false_eq_true,
        List.map_cons, hfe, Option.isSome_none]
      exact ⟨ih1, by rw [ih2], ih3, ih4⟩
    | some paper =>
      cases henr : env.enrich num with
      | none =>
        have hsucc : itemSucceeds env num = false := by
          unfold itemSucceeds; rw [hres, henr]
        have hpers : itemPersists env num = false := by
          unfold itemPersists; rw [hres, henr]; rfl
        have hfe : failureEntry env num
            = ⟨num, paper.title, "要約に失敗しました"⟩ := by
          unfold failureEntry; rw [hres]
        simp only [batchLoop, hres, henr, List.filter_cons, hsucc, hpers,
          Bool.not_false, if_false, if_true, Bool.false_eq_true,
          List.map_cons, hfe, Option.isSome_some]
        refine ⟨ih1, by rw [ih2], ih3, ?_⟩
        simp [ih4, Nat.add_comm]
      | some summary =>
        have hpers : itemPersists env num = true := by
          unfold itemPersists; rw [hres, henr]; rfl
        cases hpost : env.postOk num with
        | true =>
          have hsucc : itemSucceeds env num = true := by
            unfold itemSucceeds; rw [hres, henr]; exact hpost
          obtain ⟨jh1, jh2, jh3, jh4⟩ := ih (addPaperIdea st
            (paperDataOf paper) summary (env.clock num) (env.save1 num)
            (env.obs num) (env.save2 num)).2
          simp only [batchLoop, hres, henr, hpost, List.filter_cons,
            hsucc, hpers, Bool.not_true, if_true, if_false,
            Bool.false_eq_true, List.map_cons, Option.isSome_some]
          refine ⟨by simp [jh1], jh2, ?_, ?_⟩
          · rw [jh3, addPaperIdea_ideas_length]
            simp [Nat.add_comm, Nat.add_assoc, Nat.add_left_comm]
          · simp [jh4, Nat.add_comm]
        | false =>
          have hsucc : itemSucceeds env num = false := by
            unfold itemSucceeds; rw [hres, henr]; exact hpost
          have hfe : failureEntry env num
              = ⟨num, paper.title, "要約に失敗しました"⟩ := by
            unfold failureEntry; rw [hres]
          obtain ⟨jh1, jh2, jh3, jh4⟩ := ih (addPaperIdea st
            (paperDataOf paper) summary (env.clock num) (env.save1 num)
            (env.obs num) (env.save2 num)).2
          simp only [batchLoop, hres, henr, hpost, List.filter_cons,
            hsucc, hpers, Bool.not_false, if_true, if_false,
            Bool.false_eq_true, List.map_cons, hfe, Option.isSome_some]
          refine ⟨jh1, by rw [jh2], ?_, ?_⟩
          · rw [jh3, addPaperIdea_ideas_length]
            simp [Nat.add_comm, Nat.add_assoc, Nat.add_left_comm]
          · simp [jh4, Nat.add_comm]

theorem failureEntry_pos (env : BatchEnv) (num : Int) :
    (failureEntry env num).pos = num := by
  unfold failureEntry
  cases getSearchResult env.searchResults (num - 1) <;> rfl

theorem filter_eq_singleton {l : List Int} {a : Int} (hnd : l.Nodup)
    (ha : a ∈ l) : l.filter (fun x => decide (x = a)) = [a] := by
  induction l with
  | nil => simp at ha
  | cons x xs ih =>
    obtain ⟨hx, hxs⟩ := List.nodup_cons.mp hnd
    rcases List.mem_cons.mp ha with rfl | ha2
    · have hnil : xs.filter (fun y => decide (y = a)) = [] := by
        rw [List.filter_eq_nil_iff]
        intro b hb
        simp only [decide_eq_true_eq]
        rintro rfl
        exact hx hb
      simp [List.filter_cons, hnil]
    · have hxa : ¬ x = a := by rintro rfl; exact hx ha2
      simp [List.filter_cons, hxa, ih hxs ha2]

theorem length_filter_ne {l : List Int} {a : Int} (hnd : l.Nodup)
    (ha : a ∈ l) :
    (l.filter (fun x => decide (¬ x = a))).length + 1 = l.length := by
  induction l with
  | nil => simp at ha
  | cons x xs ih =>
    obtain ⟨hx, hxs⟩ := List.nodup_cons.mp hnd
    rcases List.mem_cons.mp ha with rfl | ha2
    · simp [List.filter_cons]
      intro b hb hba
      exact hx (hba ▸ hb)
    · have hxa : ¬ x = a := by rintro rfl; exact hx ha2
      have hih := ih hxs ha2
      simp [List.filter_cons, hxa] at hih ⊢
      omega

/-! ## Claims C4, C6, C7 -/

/-- C6 (amended): within one batch the `successfulPapers` entries
preserve the input-selection order among themselves, and so do the
`failedPapers` entries, but the loop aggregates outcomes into those two
type-grouped arrays — the final report presents all successes and then
the failures, not one interleaved sequence. -/
theorem c6_outcomes_grouped_by_type (env : BatchEnv) (sel : List Int)
    (st : StoreState) :
    (batchLoop env sel st).successes.map (fun s => s.pos)
        = sel.filter (fun num => itemSucceeds env num)
      ∧ (batchLoop env sel st).failures.map (fun f => f.pos)
        = sel.filter (fun num => !(itemSucceeds env num))
      ∧ reportedOrder (batchLoop env sel st)
        = sel.filter (fun num => itemSucceeds env num)
          ++ sel.filter (fun num => !(itemSucceeds env num)) := by
  obtain ⟨h1, h2, _, _⟩ := batchLoop_split env sel st
  have h2' : (batchLoop env sel st).failures.map (fun f => f.pos)
      = sel.filter (fun num => !(itemSucceeds env num)) := by
    rw [h2, List.map_map]
    have hcomp : ∀ num ∈ sel.filter (fun num => !(itemSucceeds env num)),
        ((fun (f : ItemFailure) => f.pos) ∘ failureEntry env) num
          = (fun (num : Int) => num) num :=
      fun num _ => failureEntry_pos env num
    rw [List.map_congr_left hcomp]
    exact List.map_id _
  exact ⟨h1, h2', by unfold reportedOrder; rw [h1, h2']⟩

/-- C6 (counterexample to the claim as stated): with three selected
papers whose middle enrichment fails, the reported outcome order is
`[1, 3, 2]` — successes regrouped before the failure — not the input
order `[1, 2, 3]`. -/
theorem c6_counterexample :
    reportedOrder (batchLoop
        (envFailAt [samplePaper 1, samplePaper 2, samplePaper 3] 2)
        [1, 2, 3] emptyStore) = [1, 3, 2]
      ∧ [1, 3, 2] ≠ ([1, 2, 3] : List Int) := by
  exact ⟨by decide, by decide⟩

/-- C4: if within one batch exactly one selected position `f` fails
at enrichment (the summarizer throws; the paper itself resolves) and
every other position runs through enrichment, persistence and posting
successfully, then the batch still attempts every position (the
summarizer is called once per position), reports one failure — with the
enrichment-failure message — and a success for every other position in
input order, and the store gains exactly one record per successful
position. -/
theorem c4_single_failure_isolated (env : BatchEnv) (sel : List Int)
    (st : StoreState) (f : Int)
    (hnd : sel.Nodup) (hf : f ∈ sel)
    (hres : (getSearchResult env.searchResults (f - 1)).isSome = true)
    (henr : env.enrich f = none)
    (hok : ∀ num ∈ sel, ¬ num = f → itemSucceeds env num = true) :
    (batchLoop env sel st).successes.map (fun s => s.pos)
        = sel.filter (fun num => decide (¬ num = f))
      ∧ (batchLoop env sel st).failures.map (fun fl => fl.pos) = [f]
      ∧ (batchLoop env sel st).failures.map (fun fl => fl.error)
        = ["要約に失敗しました"]
      ∧ (batchLoop env sel st).successes.length + 1 = sel.length
      ∧ (batchLoop env sel st).store.ideas.length + 1
        = st.ideas.length + sel.length
      ∧ (batchLoop env sel st).enrichCalls = sel.length := by
  have hsuccf : itemSucceeds env f = false := by
    cases hcase : itemSucceeds env f with
    | false => rfl
    | true =>
      obtain ⟨_, h2, _⟩ := itemSucceeds_eq_true.mp hcase
      rw [henr] at h2
      simp at h2
  have hfsucc : sel.filter (fun num => itemSucceeds env num)
      = sel.filter (fun num => decide (¬ num = f)) := by
    apply List.filter_congr
    intro x hx
    by_cases hxf : x = f
    · subst hxf; simp [hsuccf]
    · simp [hok x hx hxf, hxf]
  have hffail : sel.filter (fun num => !(itemSucceeds env num)) = [f] := by
    have hcong : sel.filter (fun num => !(itemSucceeds env num))
        = sel.filter (fun num => decide (num = f)) := by
      apply List.filter_congr
      intro x hx
      by_cases hxf : x = f
      · subst hxf; simp [hsuccf]
      · simp [hok x hx hxf, hxf]
    rw [hcong, filter_eq_singleton hnd hf]
  have hpers : sel.filter (fun num => itemPersists env num)
      = sel.filter (fun num => decide (¬ num = f)) := by
    apply List.filter_congr
    intro x hx
    by_cases hxf : x = f
    · subst hxf
      unfold itemPersists
      simp [henr]
    · obtain ⟨p1, p2, _⟩ := itemSucceeds_eq_true.mp (hok x hx hxf)
      unfold itemPersists
      simp [p1, p2, hxf]
  have hresall : sel.filter (fun num =>
      (getSearchResult env.searchResults (num - 1)).isSome) = sel := by
    rw [List.filter_eq_self]
    intro x hx
    by_cases hxf : x = f
    · subst hxf; exact hres
    · exact (itemSucceeds_eq_true.mp (hok x hx hxf)).1
  obtain ⟨h1, h2, h3, h4⟩ := batchLoop_split env sel st
  refine ⟨by rw [h1, hfsucc], ?_, ?_, ?_, ?_, by rw [h4, hresall]⟩
  · rw [h2, hffail]
    simp [failureEntry_pos]
  · rw [h2, hffail]
    obtain ⟨p, hp⟩ := Option.isSome_iff_exists.mp hres
    simp [failureEntry, hp]
  · have hlen : (batchLoop env sel st).successes.length
        = (sel.filter (fun num => decide (¬ num = f))).length := by
      rw [← List.length_map (batchLoop env sel st).successes
        (fun s => s.pos), h1, hfsucc]
    rw [hlen]
    exact length_filter_ne hnd hf
  · rw [h3, hpers]
    have := length_filter_ne hnd hf
    omega

/-- C4 (witness): five selections over five papers with the
summarizer failing exactly at position 3: four successes `[1, 2, 4, 5]`
in input order, one enrichment failure at 3, five summarizer calls, and
four new records in the store. -/
theorem c4_witness :
    (batchLoop (envFailAt [samplePaper 1, samplePaper 2, samplePaper 3,
          samplePaper 4, samplePaper 5] 3) [1, 2, 3, 4, 5]
          emptyStore).successes.map (fun s => s.pos)
        = ([1, 2, 3, 4, 5] : List Int).filter (fun num => decide (¬ num = 3))
      ∧ (batchLoop (envFailAt [samplePaper 1, samplePaper 2, samplePaper 3,
          samplePaper 4, samplePaper 5] 3) [1, 2, 3, 4, 5]
          emptyStore).failures.map (fun fl => fl.pos) = [3]
      ∧ (batchLoop (envFailAt [samplePaper 1, samplePaper 2, samplePaper 3,
          samplePaper 4, samplePaper 5] 3) [1, 2, 3, 4, 5]
          emptyStore).failures.map (fun fl => fl.error)
        = ["要約に失敗しました"]
      ∧ (batchLoop (envFailAt [samplePaper 1, samplePaper 2, samplePaper 3,
          samplePaper 4, samplePaper 5] 3) [1, 2, 3, 4, 5]
          emptyStore).successes.length + 1 = ([1, 2, 3, 4, 5] : List Int).length
      ∧ (batchLoop (envFailAt [samplePaper 1, samplePaper 2, samplePaper 3,
          samplePaper 4, samplePaper 5] 3) [1, 2, 3, 4, 5]
          emptyStore).store.ideas.length + 1
        = emptyStore.ideas.length + ([1, 2, 3, 4, 5] : List Int).length
      ∧ (batchLoop (envFailAt [samplePaper 1, samplePaper 2, samplePaper 3,
          samplePaper 4, samplePaper 5] 3) [1, 2, 3, 4, 5]
          emptyStore).enrichCalls = ([1, 2, 3, 4, 5] : List Int).length :=
  c4_single_failure_isolated
    (envFailAt [samplePaper 1, samplePaper 2, samplePaper 3,
      samplePaper 4, samplePaper 5] 3) [1, 2, 3, 4, 5] emptyStore 3
    (by decide) (by decide) (by decide) (by decide) (by decide)

/-- C7: positions outside `[1, candidateCount]` never reach the
selection set — every member of `validNumbers` is in bounds, and every
failure entry of a completed batch stems from an in-set position, so an
out-of-range position is never reported as an individual error; and when
the final selection set is empty (e.g. all positions out of range, or no
token parsed), the select branch replies `noValidSelection`, leaves the
store untouched, and never calls the summarizer. -/
theorem c7_silent_filter_and_empty_selection (env : BatchEnv)
    (expr : String) (st : StoreState) (hne : ¬ expr = "") :
    (∀ p ∈ validNumbers expr env.searchResults.length,
        1 ≤ p ∧ p ≤ (env.searchResults.length : Int))
      ∧ (validNumbers expr env.searchResults.length = [] →
          runPaperSelect env expr st
            = ⟨.noValidSelection, st, 0⟩)
      ∧ (∀ s fl, (runPaperSelect env expr st).reply = .completed s fl →
          ∀ e ∈ fl, e.pos ∈ validNumbers expr env.searchResults.length) := by
  refine ⟨fun p hp => (mem_validNumbers.mp hp).2, ?_, ?_⟩
  · intro hempty
    unfold runPaperSelect
    rw [if_neg hne, if_pos hempty]
  · intro s fl hreply e he
    unfold runPaperSelect at hreply
    rw [if_neg hne] at hreply
    by_cases hempty : validNumbers expr env.searchResults.length = []
    · rw [if_pos hempty] at hreply
      exact absurd hreply (by simp)
    · rw [if_neg hempty] at hreply
      simp only [SelectReply.completed.injEq] at hreply
      obtain ⟨_, rfl⟩ := hreply
      obtain ⟨_, h2, _, _⟩ := batchLoop_split env
        (validNumbers expr env.searchResults.length) st
      rw [h2] at he
      obtain ⟨num, hnum, rfl⟩ := List.mem_map.mp he
      rw [failureEntry_pos]
      exact List.mem_of_mem_filter hnum

/-- C7 (witness): the spec's example `"0,7"` over six candidates:
both positions are out of range, the selection set is empty, and the
call fails with the no-valid-selection reply without touching the store
or the summarizer. -/
theorem c7_witness :
    runPaperSelect (envFailAt [samplePaper 1, samplePaper 2, samplePaper 3,
        samplePaper 4, samplePaper 5, samplePaper 6] 0) "0,7" emptyStore
      = ⟨.noValidSelection, emptyStore, 0⟩ :=
  (c7_silent_filter_and_empty_selection
    (envFailAt [samplePaper 1, samplePaper 2, samplePaper 3,
      samplePaper 4, samplePaper 5, samplePaper 6] 0) "0,7" emptyStore
    (by decide)).2.1 (by decide)

/-! ## Claims C5, C9, C10 -/

/-- C5 (amended): the renderer is a pure function of the record, the
paper, the enrichment detail and the wall clock read at the call — two
calls agreeing on the generated timestamp render byte-identical
documents — but its output embeds the render-time timestamp (file name
and `投稿日時` header), a timestamp that does not come from the record. -/
theorem c5_render_deterministic_given_clock (idea : Idea)
    (paper : ArxivPaper) (summary : PaperSummary) (d d2 : JSDate)
    (h : generateTimestamp d = generateTimestamp d2) :
    generatePaperMarkdown idea paper summary d
        = generatePaperMarkdown idea paper summary d2
      ∧ ∃ rest : String,
          generatePaperMarkdown idea paper summary d
            = "# 📚 論文要約\n\n**ファイル名**: paper_"
              ++ generateTimestamp d ++ rest := by
  constructor
  · unfold generatePaperMarkdown
    rw [h]
  · exact ⟨_, by
      simp only [generatePaperMarkdown, paperMarkdownWithTs,
        String.append_assoc]
      rfl⟩

/-- C5 (witness): at a fixed clock instant the rendering of a concrete
paper record is reproducible, and its output starts with the header
carrying the render-time timestamp. -/
theorem c5_witness :
    generatePaperMarkdown
        { id := "002", channel := "論文収集", content := "要約",
          type := .paper, createdAt := 0, tags := ["AI"] }
        (samplePaper 2) sampleSummary ⟨2025, 1, 1, 0, 0, 0⟩
      = generatePaperMarkdown
        { id := "002", channel := "論文収集", content := "要約",
          type := .paper, createdAt := 0, tags := ["AI"] }
        (samplePaper 2) sampleSummary ⟨2025, 1, 1, 0, 0, 0⟩
    ∧ ∃ rest : String,
        generatePaperMarkdown
          { id := "002", channel := "論文収集", content := "要約",
            type := .paper, createdAt := 0, tags := ["AI"] }
          (samplePaper 2) sampleSummary ⟨2025, 1, 1, 0, 0, 0⟩
          = "# 📚 論文要約\n\n**ファイル名**: paper_"
            ++ generateTimestamp ⟨2025, 1, 1, 0, 0, 0⟩ ++ rest :=
  c5_render_deterministic_given_clock
    { id := "002", channel := "論文収集", content := "要約",
      type := .paper, createdAt := 0, tags := ["AI"] }
    (samplePaper 2) sampleSummary ⟨2025, 1, 1, 0, 0, 0⟩
    ⟨2025, 1, 1, 0, 0, 0⟩ rfl

/-- C5 (counterexample to the claim as stated): identical record,
paper and enrichment detail rendered at two different clock instants
produce different bytes — the output carries a timestamp that is not
stored on the record. -/
theorem c5_counterexample :
    ¬ (generatePaperMarkdown
          { id := "001", channel := "論文収集", content := "要約",
            type := .paper, createdAt := 0, tags := ["AI"] }
          (samplePaper 1) sampleSummary ⟨2025, 1, 1, 0, 0, 0⟩
        = generatePaperMarkdown
          { id := "001", channel := "論文収集", content := "要約",
            type := .paper, createdAt := 0, tags := ["AI"] }
          (samplePaper 1) sampleSummary ⟨2025, 1, 1, 0, 0, 1⟩) := by
  decide

theorem pushAndSync_fst_tags (st : StoreState) (newIdea : Idea)
    (s1 : Bool) (obs : Option String) (s2 : Bool) :
    (pushAndSync st newIdea s1 obs s2).1.tags = newIdea.tags := by
  unfold pushAndSync
  cases obs <;> rfl

/-- C9 (amended): only `addArticleIdea` deduplicates its tags (the
`Set`-dedup of the caller's tags followed by the summary-extracted ones);
`addIdea` stores the hashtags extracted from the content verbatim and
`addPaperIdea` stores the summarizer's tag list verbatim, so those two
can persist duplicates. In every path the tags are stored exactly as
inserted — no case folding or other re-normalization happens after
insertion. -/
theorem c9_tags_dedup_only_articles (st1 st2 st3 : StoreState)
    (channel content url summary : String) (ad : ArticleInput)
    (tags : List String) (pd : PaperData) (ps : PaperSummary)
    (ty : IdeaType) (now : Nat) (s1 : Bool) (obs : Option String)
    (s2 : Bool) :
    (addArticleIdea st2 channel url ad summary tags now s1 obs s2).1.tags
        = dedupKeepFirst (tags ++ extractTags summary)
      ∧ ((addArticleIdea st2 channel url ad summary tags now s1 obs
          s2).1.tags).Nodup
      ∧ (addIdea st1 channel content ty now s1 obs s2).1.tags
        = extractTags content
      ∧ (addPaperIdea st3 pd ps now s1 obs s2).1.tags = ps.tags := by
  refine ⟨?_, ?_, ?_, ?_⟩
  · unfold addArticleIdea
    rw [pushAndSync_fst_tags]
  · unfold addArticleIdea
    rw [pushAndSync_fst_tags]
    exact nodup_dedupKeepFirst _
  · unfold addIdea
    rw [pushAndSync_fst_tags]
  · unfold addPaperIdea
    rw [pushAndSync_fst_tags]

/-- C9 (counterexample to the claim as stated): a text append whose
content repeats a hashtag (`"#a #a"`) stores the tag list `["a", "a"]` —
the record's tags are not a duplicate-free set. -/
theorem c9_counterexample :
    ¬ ((addIdea emptyStore "ひらめき" "#a #a" .text 0 true none
        true).1.tags).Nodup := by
  decide

/-- C10: `getRecentIdeas` never mutates the store: it filters and
sorts a spread copy, so `this.ideas` after the call is exactly the list
it held before — same records, same stored order, nothing added or
removed — and every returned record is one of the stored records. -/
theorem c10_query_is_pure (ideas : List Idea) (limit : Nat)
    (channel : Option String) :
    (getRecentIdeas ideas limit channel).2 = ideas
      ∧ ∀ x ∈ (getRecentIdeas ideas limit channel).1, x ∈ ideas := by
  refine ⟨rfl, ?_⟩
  intro x hx
  unfold getRecentIdeas at hx
  have hx2 := List.take_subset _ _ hx
  rw [(List.perm_insertionSort _ _).mem_iff] at hx2
  cases channel with
  | none => exact hx2
  | some ch => exact List.mem_of_mem_filter hx2
